import Mathlib

/-!
Verification development for the weekly sales forecasting pipeline
(`app.py`): time bucketing (`load_and_preprocess_data`), chart-series
assembly and quarter aggregation (route handler `home`).

Modelling conventions:
* Timestamps become day numbers (`Nat`); the epoch (day 0) is chosen so
  that days divisible by 7 are the Sunday week labels of pandas
  `resample('W')` (weeks are closed on the right and labelled by their
  right edge, i.e. the Sunday ending the week).
* Monetary amounts become `Int` (exact stand-ins for the floats of the
  source; none of the verified claims concerns rounding).
* pandas/Python operations become explicit list programs: `resample('W').sum()`
  builds the full label range from the first to the last occupied week and
  sums each bin (an empty bin sums to 0); `pd.merge(..., how='outer')`
  produces the left keys (each repeated once per matching right row) followed
  by the unmatched right keys; `sort_values` is a sort by the named key(s);
  `Series.unique()` keeps first occurrences in order; the global
  memo variable of `load_and_preprocess_data` becomes explicit state passing.
-/

namespace SalesForecast

/-- A raw transaction row: `Purchase_Date` (day number) and `Purchase_Amount`. -/
structure RawRecord where
  ts : Nat
  amount : Int
deriving DecidableEq

/-- A row of `df_resampled`: week-end date `ds` and weekly total `y`. -/
structure WeeklyBucket where
  ds : Nat
  y : Int
deriving DecidableEq

/-- A row of Prophet's `forecast_full`: `ds`, `yhat`, `yhat_lower`, `yhat_upper`. -/
structure ForecastPoint where
  ds : Nat
  yhat : Int
  yhat_lower : Int
  yhat_upper : Int
deriving DecidableEq

/-- The pandas `resample('W')` label of a day: the smallest multiple of 7
that is ≥ the day (the Sunday ending its calendar week, with day 0 a Sunday). -/
def weekEnd (d : Nat) : Nat := ((d + 6) / 7) * 7

/-- The full weekly label range `lo, lo+7, ..., hi` produced by a resample
whose first occupied bin is labelled `lo` and last occupied bin `hi`. -/
def weekRange (lo hi : Nat) : List Nat :=
  (List.range ((hi - lo) / 7 + 1)).map (fun i => lo + 7 * i)

/-- `load_and_preprocess_data`, data part (app.py lines 36-42):
`df.set_index('Purchase_Date').resample('W')['Purchase_Amount'].sum()`
followed by the filter `df_resampled[df_resampled['y'] >= 0]`.
The resample emits one bucket per calendar week from the first occupied
week to the last, summing the amounts of the records falling in that week
(0 when the week has no record); the filter then keeps the buckets whose
weekly total is ≥ 0. -/
def bucket_weekly (records : List RawRecord) : List WeeklyBucket :=
  match records.map (fun r => weekEnd r.ts) with
  | [] => []
  | l :: ls =>
    let lo := ls.foldl min l
    let hi := ls.foldl max l
    ((weekRange lo hi).map (fun w =>
      WeeklyBucket.mk w
        (((records.filter (fun r => weekEnd r.ts == w)).map (fun r => r.amount)).sum))).filter
      (fun b => decide (0 ≤ b.y))

/-- `ds.dt.quarter`: calendar quarter of a month number (1-12). -/
def quarterOf (month : Nat) : Nat := (month + 2) / 3

/-- A row of `forecast_future_only` as used by the seasonal aggregation:
its calendar year, month (for `dt.quarter`) and predicted value `yhat`. -/
structure ForecastFuturePoint where
  year : Int
  month : Nat
  yhat : Int
deriving DecidableEq

/-- A row of `seasonal_forecast`: year, quarter and summed prediction. -/
structure QuarterRollup where
  year : Int
  quarter : Nat
  yhat : Int
deriving DecidableEq

/-- `Series.unique()`: the distinct values in order of first appearance. -/
def uniqueFirst (l : List Int) : List Int :=
  l.foldl (fun acc a => if a ∈ acc then acc else acc ++ [a]) []

/-- `quarter_data['yhat'].sum()` for one `(year, quarter)` group:
the summed predictions of the rows with that year and quarter. -/
def groupSum (l : List ForecastFuturePoint) (y : Int) (q : Nat) : Int :=
  ((l.filter (fun e => e.year == y && quarterOf e.month == q)).map (fun e => e.yhat)).sum

/-- The `sort_values(by=['year', 'quarter'])` key order on rollup rows. -/
def rollupLe (a b : QuarterRollup) : Prop :=
  a.year < b.year ∨ (a.year = b.year ∧ a.quarter ≤ b.quarter)

instance : DecidableRel rollupLe := fun a b => by
  unfold rollupLe; infer_instance

instance : IsTotal QuarterRollup rollupLe := by
  constructor
  intro a b
  unfold rollupLe
  rcases lt_trichotomy a.year b.year with h | h | h
  · exact Or.inl (Or.inl h)
  · rcases Nat.le_total a.quarter b.quarter with hq | hq
    · exact Or.inl (Or.inr ⟨h, hq⟩)
    · exact Or.inr (Or.inr ⟨h.symm, hq⟩)
  · exact Or.inr (Or.inl h)

instance : IsTrans QuarterRollup rollupLe := by
  constructor
  intro a b c hab hbc
  unfold rollupLe at *
  rcases hab with h1 | ⟨e1, q1⟩
  · rcases hbc with h2 | ⟨e2, _⟩
    · exact Or.inl (h1.trans h2)
    · exact Or.inl (e2 ▸ h1)
  · rcases hbc with h2 | ⟨e2, q2⟩
    · exact Or.inl (e1 ▸ h2)
    · exact Or.inr ⟨e1.trans e2, q1.trans q2⟩

/-- The seasonal aggregation of app.py lines 134-157: iterate the distinct
forecast years in order of appearance; for each year and each quarter 1-4 sum
the predictions of that group; keep the group only when the sum is > 0
(`if predicted_sales > 0`); finally `sort_values(by=['year', 'quarter'])`. -/
def aggregate_quarters (l : List ForecastFuturePoint) : List QuarterRollup :=
  List.insertionSort rollupLe
    ((uniqueFirst (l.map (fun e => e.year))).flatMap (fun y =>
      ([1, 2, 3, 4] : List Nat).filterMap (fun q =>
        if 0 < groupSum l y q then some (QuarterRollup.mk y q (groupSum l y q)) else none)))

/-- The `ds` column of `pd.merge(left, right, on='ds', how='outer')`:
each left key, repeated once per matching right row (or once when
unmatched), followed by the unmatched right keys. -/
def outerMergeDates (hd fd : List Nat) : List Nat :=
  hd.flatMap (fun d => List.replicate (max 1 (fd.count d)) d)
    ++ fd.filter (fun d => !(hd.contains d))

/-- `full_plot_data['ds']` (app.py lines 196-197): the outer-merged dates,
then `sort_values('ds')`. -/
def allDates (hd fd : List Nat) : List Nat :=
  List.insertionSort (fun a b => a ≤ b) (outerMergeDates hd fd)

/-- `df_resampled_global[df_resampled_global['ds'] == ds_date]['y'].iloc[0]`,
guarded by `ds_date in df_resampled_global['ds'].values`:
the `y` of the first historical row at the date, when one exists. -/
def lookupY (H : List WeeklyBucket) (d : Nat) : Option Int :=
  (H.find? (fun b => b.ds == d)).map (fun b => b.y)

/-- `forecast_full[forecast_full['ds'] == ds_date].iloc[0]['yhat']`, guarded
by membership, as in app.py lines 243-246. -/
def lookupYhat (F : List ForecastPoint) (d : Nat) : Option Int :=
  (F.find? (fun p => p.ds == d)).map (fun p => p.yhat)

/-- As `lookupYhat` but for the `yhat_lower` column (app.py line 247). -/
def lookupLower (F : List ForecastPoint) (d : Nat) : Option Int :=
  (F.find? (fun p => p.ds == d)).map (fun p => p.yhat_lower)

/-- As `lookupYhat` but for the `yhat_upper` column (app.py line 248). -/
def lookupUpper (F : List ForecastPoint) (d : Nat) : Option Int :=
  (F.find? (fun p => p.ds == d)).map (fun p => p.yhat_upper)

/-- `next((i for i, x in reversed(list(enumerate(l))) if x is not None), -1)`
(app.py line 253): the greatest index holding a non-`None` value, `none`
when there is no such index (the Python sentinel `-1`). -/
def lastActualIndex : List (Option Int) → Option Nat
  | [] => none
  | a :: t =>
    match lastActualIndex t with
    | some i => some (i + 1)
    | none => if a.isSome then some 0 else none

/-- The dictionary serialized as `chart_data_json` (app.py lines 259-265). -/
structure ChartPayload where
  labels : List Nat
  actuals : List (Option Int)
  forecasts : List (Option Int)
  lower_bound : List (Option Int)
  upper_bound : List (Option Int)
deriving DecidableEq

/-- The chart assembly of app.py lines 196-265, parametrised by the
historical series `H` (`df_resampled_global`) and the forecast series `F`
(`forecast_full`): outer-merge the dates and sort; build the four aligned
value lists by per-date lookup (`None` where the date is absent from the
corresponding input); then, when a last index carrying an actual exists and
is not the final index, overwrite the forecast at that index with the
actual there (lines 252-256). -/
def assemble (H : List WeeklyBucket) (F : List ForecastPoint) : ChartPayload :=
  let labels := allDates (H.map (fun b => b.ds)) (F.map (fun p => p.ds))
  let acts := labels.map (lookupY H)
  let fors := labels.map (lookupYhat F)
  let lows := labels.map (lookupLower F)
  let ups := labels.map (lookupUpper F)
  let fors2 :=
    match lastActualIndex acts with
    | some i =>
      if i + 1 < fors.length then fors.set i (acts.getD i none) else fors
    | none => fors
  ChartPayload.mk labels acts fors2 lows ups

/-- One call to `load_and_preprocess_data` (app.py lines 26-50), with the
module global `df_resampled_global` made explicit. `cache` is the global
before the call; `attempt` is what the body's try-block would produce if
run now (`some` data on success, `none` when it raises). Returns the
call's result and the global after the call: a populated global is
returned unchanged; otherwise the load is attempted, a success is stored,
and a failure returns `None` leaving the global unset. -/
def loadOnce (cache : Option (List WeeklyBucket)) (attempt : Option (List WeeklyBucket)) :
    Option (List WeeklyBucket) × Option (List WeeklyBucket) :=
  match cache with
  | some d => (some d, some d)
  | none =>
    match attempt with
    | some d => (some d, some d)
    | none => (none, none)

/-- A sequence of calls to `load_and_preprocess_data`, threading the global
through; the i-th element of `attempts` is what the i-th call's try-block
would produce if it runs. Returns the list of call results. -/
def runLoads : Option (List WeeklyBucket) → List (Option (List WeeklyBucket)) →
    List (Option (List WeeklyBucket))
  | _, [] => []
  | cache, a :: rest =>
    let r := loadOnce cache a
    r.1 :: runLoads r.2 rest

/-! ### Helper lemmas on the time-bucketing stage -/

/-- The resample label range is strictly increasing. -/
theorem weekRange_pairwise_lt (lo hi : Nat) :
    (weekRange lo hi).Pairwise (fun a b => a < b) := by
  unfold weekRange
  rw [List.pairwise_map]
  exact (List.pairwise_lt_range _).imp (by omega)

/-- The shape of a nonempty bucketing run: labels from resampling, summed
bins, and the weekly-total filter. -/
theorem bucket_weekly_cons (r : RawRecord) (rs : List RawRecord) :
    bucket_weekly (r :: rs) =
      ((weekRange ((rs.map (fun x => weekEnd x.ts)).foldl min (weekEnd r.ts))
          ((rs.map (fun x => weekEnd x.ts)).foldl max (weekEnd r.ts))).map (fun w =>
        WeeklyBucket.mk w
          ((((r :: rs).filter (fun x => weekEnd x.ts == w)).map (fun x => x.amount)).sum))).filter
        (fun b => decide (0 ≤ b.y)) := by
  rfl

/-- C3: claimed that `bucket_weekly` never synthesizes zero-valued buckets
for calendar weeks without records. Counterexample: the records on days 1
and 15 leave the week ending on day 14 empty, yet the output contains the
synthesized bucket `(14, 0)` (pandas `resample('W').sum()` emits every
week of the range and sums an empty bin to 0, and the `y >= 0` filter
keeps it). -/
theorem c3_counterexample_zero_week_synthesized :
    bucket_weekly [RawRecord.mk 1 10, RawRecord.mk 15 7] =
      [WeeklyBucket.mk 7 10, WeeklyBucket.mk 14 0, WeeklyBucket.mk 21 7] ∧
    ([RawRecord.mk 1 10, RawRecord.mk 15 7].filter (fun r => weekEnd r.ts == 14)) = [] := by
  decide

/-- C3 (amended): every calendar week in the resampled range that contains
no source record appears in the output as a synthesized zero-valued
bucket; gaps in the source produce zero buckets, not gaps. -/
theorem c3_gap_weeks_become_zero_buckets (r : RawRecord) (rs : List RawRecord) (w : Nat)
    (hw : w ∈ weekRange ((rs.map (fun x => weekEnd x.ts)).foldl min (weekEnd r.ts))
      ((rs.map (fun x => weekEnd x.ts)).foldl max (weekEnd r.ts)))
    (hempty : (r :: rs).filter (fun x => weekEnd x.ts == w) = []) :
    WeeklyBucket.mk w 0 ∈ bucket_weekly (r :: rs) := by
  rw [bucket_weekly_cons]
  rw [List.mem_filter]
  constructor
  · rw [List.mem_map]
    refine ⟨w, hw, ?_⟩
    rw [hempty]
    rfl
  · rfl

/-- C3 witness: the amended statement applied at the concrete gap input. -/
theorem c3_gap_weeks_become_zero_buckets_witness :
    WeeklyBucket.mk 14 0 ∈ bucket_weekly [RawRecord.mk 1 10, RawRecord.mk 15 7] :=
  c3_gap_weeks_become_zero_buckets (RawRecord.mk 1 10) [RawRecord.mk 15 7] 14
    (by decide) (by decide)

/-- C5: claimed that records with negative amount are dropped before the
weekly aggregation, so each week's total is the sum of its non-negative
records only. Counterexample: the records `(day 1, -5)` and `(day 1, 10)`
yield the weekly total 5 — the negative record contributed — where the
claim predicts the total 10. The `y >= 0` filter of the source applies to
the aggregated weekly totals, not to the individual records. -/
theorem c5_counterexample_negative_record_contributes :
    bucket_weekly [RawRecord.mk 1 (-5), RawRecord.mk 1 10] = [WeeklyBucket.mk 7 5] ∧
      (5 : Int) ≠ 10 := by
  decide

/-- C5 (amended): every emitted bucket's total is the sum of the amounts of
all records of its week, negative records included, and the filter instead
guarantees that every emitted weekly total is ≥ 0 (weeks whose total is
negative are dropped whole). -/
theorem c5_totals_sum_all_records (records : List RawRecord) (b : WeeklyBucket)
    (hb : b ∈ bucket_weekly records) :
    0 ≤ b.y ∧
      b.y = ((records.filter (fun r => weekEnd r.ts == b.ds)).map (fun r => r.amount)).sum := by
  match records with
  | [] => exact absurd hb (List.not_mem_nil b)
  | r :: rs =>
    rw [bucket_weekly_cons] at hb
    rw [List.mem_filter] at hb
    obtain ⟨hmem, hpos⟩ := hb
    rw [List.mem_map] at hmem
    obtain ⟨w, _, hw⟩ := hmem
    constructor
    · simpa using hpos
    · rw [← hw]

/-- C5 witness: the amended statement applied to the mixed-sign input. -/
theorem c5_totals_sum_all_records_witness :
    0 ≤ (WeeklyBucket.mk 7 5).y ∧
      (WeeklyBucket.mk 7 5).y =
        (([RawRecord.mk 1 (-5), RawRecord.mk 1 10].filter
          (fun r => weekEnd r.ts == (WeeklyBucket.mk 7 5).ds)).map (fun r => r.amount)).sum :=
  c5_totals_sum_all_records [RawRecord.mk 1 (-5), RawRecord.mk 1 10]
    (WeeklyBucket.mk 7 5) (by decide)

/-- C8: the week-end dates produced by `bucket_weekly` are strictly
increasing (hence duplicate-free): the resample label range is strictly
increasing and the weekly-total filter only removes elements. -/
theorem c8_bucket_dates_strictly_increasing (records : List RawRecord) :
    ((bucket_weekly records).map (fun b => b.ds)).Pairwise (fun a b => a < b) := by
  match records with
  | [] => exact List.Pairwise.nil
  | r :: rs =>
    rw [bucket_weekly_cons]
    apply List.Pairwise.sublist (List.Sublist.map _ (List.filter_sublist _))
    rw [List.map_map]
    have : ((fun b => b.ds) ∘ fun w =>
        WeeklyBucket.mk w
          ((((r :: rs).filter (fun x => weekEnd x.ts == w)).map (fun x => x.amount)).sum)) =
        fun w => w := rfl
    rw [this, List.map_id']
    exact weekRange_pairwise_lt _ _

/-! ### Helper lemmas on the quarter-aggregation stage -/

/-- `Series.unique()` returns distinct values. -/
theorem uniqueFirst_nodup (l : List Int) : (uniqueFirst l).Nodup := by
  have h : ∀ (t : List Int) (acc : List Int), acc.Nodup →
      (t.foldl (fun acc a => if a ∈ acc then acc else acc ++ [a]) acc).Nodup := by
    intro t
    induction t with
    | nil => intro acc hacc; exact hacc
    | cons a s ih =>
      intro acc hacc
      simp only [List.foldl_cons]
      by_cases hmem : a ∈ acc
      · rw [if_pos hmem]; exact ih acc hacc
      · rw [if_neg hmem]
        apply ih
        simp [List.nodup_append, hacc, hmem]
  exact h l [] List.nodup_nil

/-- The retained rollup row a `(year, quarter)` cell can produce. -/
theorem rollup_cell_shape (l : List ForecastFuturePoint) (y : Int) (q : Nat) (x : QuarterRollup)
    (h : (if 0 < groupSum l y q then some (QuarterRollup.mk y q (groupSum l y q)) else none) =
      some x) :
    x = QuarterRollup.mk y q (groupSum l y q) ∧ 0 < groupSum l y q := by
  by_cases hp : 0 < groupSum l y q
  · rw [if_pos hp] at h
    exact ⟨(Option.some.inj h).symm, hp⟩
  · rw [if_neg hp] at h
    exact absurd h (by simp)

/-- C6: claimed that `aggregate_quarters` drops exactly the quarters whose
summed prediction is exactly zero and keeps every nonzero quarter, even a
negative one. Counterexample: a single forecast point of -5 in 2025 Q1
gives a quarter whose sum is -5 — nonzero — yet the output is empty: the
source keeps a quarter only under `predicted_sales > 0`, so zero and
negative sums are both dropped. -/
theorem c6_counterexample_negative_sum_dropped :
    aggregate_quarters [ForecastFuturePoint.mk 2025 2 (-5)] = [] ∧
      groupSum [ForecastFuturePoint.mk 2025 2 (-5)] 2025 1 = -5 ∧ (-5 : Int) ≠ 0 := by
  decide

/-- C6 (amended): `aggregate_quarters` retains exactly the `(year, quarter)`
groups whose summed prediction is strictly positive: a row is in the output
iff its year occurs among the input years, its quarter is one of 1-4, its
total is the group's sum, and that sum is > 0 (zero and negative sums are
both dropped). -/
theorem c6_retained_iff_sum_positive (l : List ForecastFuturePoint) (r : QuarterRollup) :
    r ∈ aggregate_quarters l ↔
      (r.year ∈ uniqueFirst (l.map (fun e => e.year)) ∧ r.quarter ∈ ([1, 2, 3, 4] : List Nat) ∧
        r.yhat = groupSum l r.year r.quarter ∧ 0 < r.yhat) := by
  unfold aggregate_quarters
  rw [List.mem_insertionSort, List.mem_flatMap]
  constructor
  · rintro ⟨y, hy, hr⟩
    rw [List.mem_filterMap] at hr
    obtain ⟨q, hq, hif⟩ := hr
    obtain ⟨rfl, hpos⟩ := rollup_cell_shape l y q _ hif
    exact ⟨hy, hq, rfl, hpos⟩
  · rintro ⟨hy, hq, hsum, hpos⟩
    refine ⟨r.year, hy, ?_⟩
    rw [List.mem_filterMap]
    refine ⟨r.quarter, hq, ?_⟩
    rw [← hsum, if_pos (hsum ▸ hpos)]

/-- C7: the quarterly output is sorted strictly ascending by
`(year, quarter)`; in particular no two rows share a `(year, quarter)`
pair. The final `sort_values(by=['year', 'quarter'])` gives the ascending
order, and the year × quarter double loop visits every cell at most
once, so the keys are distinct. -/
theorem c7_rollup_sorted_strictly (l : List ForecastFuturePoint) :
    (aggregate_quarters l).Pairwise (fun a b =>
      a.year < b.year ∨ (a.year = b.year ∧ a.quarter < b.quarter)) := by
  have hs : (aggregate_quarters l).Pairwise rollupLe :=
    List.sorted_insertionSort rollupLe _
  have hne : (aggregate_quarters l).Pairwise
      (fun a b => ¬(a.year = b.year ∧ a.quarter = b.quarter)) := by
    unfold aggregate_quarters
    rw [List.Perm.pairwise_iff (fun h hc => h ⟨hc.1.symm, hc.2.symm⟩)
      (List.perm_insertionSort _ _)]
    rw [List.pairwise_flatMap]
    constructor
    · intro y _
      rw [List.pairwise_filterMap]
      have hq : ([1, 2, 3, 4] : List Nat).Pairwise (fun a b => a ≠ b) := by decide
      refine hq.imp ?_
      intro q1 q2 hq12
      intro x1 h1 x2 h2
      obtain ⟨rfl, -⟩ := rollup_cell_shape l y q1 x1 h1
      obtain ⟨rfl, -⟩ := rollup_cell_shape l y q2 x2 h2
      intro hc
      exact hq12 hc.2
    · refine (uniqueFirst_nodup _).imp ?_
      intro y1 y2 hy
      intro x1 h1 x2 h2
      rw [List.mem_filterMap] at h1 h2
      obtain ⟨q1, -, hx1⟩ := h1
      obtain ⟨q2, -, hx2⟩ := h2
      obtain ⟨rfl, -⟩ := rollup_cell_shape l y1 q1 x1 hx1
      obtain ⟨rfl, -⟩ := rollup_cell_shape l y2 q2 x2 hx2
      intro hc
      exact hy hc.1
  refine (hs.and hne).imp ?_
  intro a b hab
  obtain ⟨hle, hnab⟩ := hab
  rcases hle with h | ⟨he, hq⟩
  · exact Or.inl h
  · exact Or.inr ⟨he, lt_of_le_of_ne hq (fun h2 => hnab ⟨he, h2⟩)⟩

/-! ### The memoized loader -/

/-- C9: claimed that a failed initialization is latched, every later call
observing the same failure without retrying. Counterexample: a first call
whose load attempt fails returns `None` and leaves the global unset, and a
second call whose attempt succeeds returns the loaded data — the load was
silently retried and observed a different outcome, not the same failure. -/
theorem c9_counterexample_failure_not_latched :
    runLoads none [none, some [WeeklyBucket.mk 7 5]] =
      [none, some [WeeklyBucket.mk 7 5]] ∧
      some [WeeklyBucket.mk 7 5] ≠ (none : Option (List WeeklyBucket)) := by
  constructor
  · rfl
  · simp

/-- C9 (amended): a successful initialization is latched: once the global
holds a value, every later call returns that same value and never reruns
the load (the outcomes of later load attempts are ignored). A failed
initialization is not latched: the global stays unset, so the next call
attempts the load again. -/
theorem c9_success_latched (d : List WeeklyBucket)
    (attempts : List (Option (List WeeklyBucket))) :
    runLoads (some d) attempts = attempts.map (fun _ => some d) ∧
      (∀ a : Option (List WeeklyBucket), loadOnce none a = (a, a)) := by
  constructor
  · induction attempts with
    | nil => rfl
    | cons a rest ih => simpa [runLoads, loadOnce] using ih
  · intro a
    cases a <;> rfl

/-! ### Helper lemmas on the series assembler -/

/-- Generic option-lookup fact: a date-keyed lookup is non-`None` exactly
when the date occurs among the keys. -/
theorem find?_map_ne_none_iff {α β : Type} (key : α → Nat) (g : α → β) (L : List α) (d : Nat) :
    ((L.find? (fun x => key x == d)).map g) ≠ none ↔ d ∈ L.map key := by
  rw [Option.ne_none_iff_isSome, Option.isSome_map', List.find?_isSome]
  constructor
  · rintro ⟨x, hx, hbeq⟩
    exact List.mem_map.mpr ⟨x, hx, by simpa using hbeq⟩
  · intro hm
    obtain ⟨x, hx, hk⟩ := List.mem_map.mp hm
    exact ⟨x, hx, by simpa using hk⟩

/-- `lookupY` finds a value exactly for historical dates. -/
theorem lookupY_ne_none_iff (H : List WeeklyBucket) (d : Nat) :
    lookupY H d ≠ none ↔ d ∈ H.map (fun b => b.ds) :=
  by unfold lookupY; exact find?_map_ne_none_iff (fun b => b.ds) (fun b => b.y) H d

/-- `lookupYhat` finds a value exactly for forecast dates. -/
theorem lookupYhat_ne_none_iff (F : List ForecastPoint) (d : Nat) :
    lookupYhat F d ≠ none ↔ d ∈ F.map (fun p => p.ds) :=
  by unfold lookupYhat; exact find?_map_ne_none_iff (fun p => p.ds) (fun p => p.yhat) F d

/-- `lookupLower` finds a value exactly for forecast dates. -/
theorem lookupLower_ne_none_iff (F : List ForecastPoint) (d : Nat) :
    lookupLower F d ≠ none ↔ d ∈ F.map (fun p => p.ds) :=
  by unfold lookupLower; exact find?_map_ne_none_iff (fun p => p.ds) (fun p => p.yhat_lower) F d

/-- `lookupUpper` finds a value exactly for forecast dates. -/
theorem lookupUpper_ne_none_iff (F : List ForecastPoint) (d : Nat) :
    lookupUpper F d ≠ none ↔ d ∈ F.map (fun p => p.ds) :=
  by unfold lookupUpper; exact find?_map_ne_none_iff (fun p => p.ds) (fun p => p.yhat_upper) F d

/-- With duplicate-free forecast dates, every merged left key appears once. -/
theorem flatMap_replicate_of_nodup (hd fd : List Nat) (hf : fd.Nodup) :
    hd.flatMap (fun d => List.replicate (max 1 (fd.count d)) d) = hd := by
  induction hd with
  | nil => rfl
  | cons a t ih =>
    rw [List.flatMap_cons, ih]
    have hc : fd.count a ≤ 1 := List.nodup_iff_count_le_one.mp hf a
    rw [Nat.max_eq_left hc]
    rfl

/-- The sorted outer-merged date list contains exactly the dates of the two
inputs. -/
theorem mem_allDates (hd fd : List Nat) (d : Nat) :
    d ∈ allDates hd fd ↔ d ∈ hd ∨ d ∈ fd := by
  unfold allDates outerMergeDates
  rw [List.mem_insertionSort, List.mem_append, List.mem_flatMap]
  constructor
  · rintro (⟨a, ha, hrep⟩ | hfil)
    · rw [List.mem_replicate] at hrep
      exact Or.inl (hrep.2 ▸ ha)
    · exact Or.inr (List.mem_filter.mp hfil).1
  · rintro (hhd | hfd)
    · refine Or.inl ⟨d, hhd, List.mem_replicate.mpr ⟨?_, rfl⟩⟩
      have := Nat.le_max_left 1 (fd.count d)
      omega
    · by_cases hin : d ∈ hd
      · refine Or.inl ⟨d, hin, List.mem_replicate.mpr ⟨?_, rfl⟩⟩
        have := Nat.le_max_left 1 (fd.count d)
        omega
      · exact Or.inr (List.mem_filter.mpr ⟨hfd, by simp [hin]⟩)

/-- With duplicate-free inputs the sorted merged date list is
duplicate-free. -/
theorem allDates_nodup (hd fd : List Nat) (hh : hd.Nodup) (hf : fd.Nodup) :
    (allDates hd fd).Nodup := by
  unfold allDates
  rw [List.Perm.nodup_iff (List.perm_insertionSort _ _)]
  unfold outerMergeDates
  rw [flatMap_replicate_of_nodup hd fd hf, List.nodup_append]
  refine ⟨hh, hf.filter _, ?_⟩
  intro a ha hafil
  have := (List.mem_filter.mp hafil).2
  simp only [Bool.not_eq_eq_eq_not, Bool.not_true] at this
  exact absurd (by simpa using this) (by simpa using ha)

/-- The field equations of `assemble`. -/
theorem assemble_labels (H : List WeeklyBucket) (F : List ForecastPoint) :
    (assemble H F).labels = allDates (H.map (fun b => b.ds)) (F.map (fun p => p.ds)) := rfl

/-- The actuals column is the historical lookup of each label. -/
theorem assemble_actuals (H : List WeeklyBucket) (F : List ForecastPoint) :
    (assemble H F).actuals = (assemble H F).labels.map (lookupY H) := rfl

/-- The lower-bound column is the forecast lookup of each label. -/
theorem assemble_lower (H : List WeeklyBucket) (F : List ForecastPoint) :
    (assemble H F).lower_bound = (assemble H F).labels.map (lookupLower F) := rfl

/-- The upper-bound column is the forecast lookup of each label. -/
theorem assemble_upper (H : List WeeklyBucket) (F : List ForecastPoint) :
    (assemble H F).upper_bound = (assemble H F).labels.map (lookupUpper F) := rfl

/-- The forecast column before the continuity override. -/
theorem assemble_forecasts (H : List WeeklyBucket) (F : List ForecastPoint) :
    (assemble H F).forecasts =
      (match lastActualIndex ((assemble H F).actuals) with
      | some i =>
        if i + 1 < ((assemble H F).labels.map (lookupYhat F)).length then
          ((assemble H F).labels.map (lookupYhat F)).set i
            ((assemble H F).actuals.getD i none)
        else (assemble H F).labels.map (lookupYhat F)
      | none => (assemble H F).labels.map (lookupYhat F)) := rfl

/-- Reading an index below a mapped list's length applies the function to
the label there. -/
theorem getD_map_of_lt {α β : Type} (f : α → β) (l : List α) (i : Nat) (hi : i < l.length)
    (dflt : β) (d0 : α) : (l.map f).getD i dflt = f (l.getD i d0) := by
  rw [List.getD_eq_getElem _ _ (by simpa using hi), List.getElem_map,
    List.getD_eq_getElem _ _ hi]

/-- C4: claimed that assembling fails with `DisjointSeriesError` when the
forecast's earliest date precedes the historical's latest date. The source
raises no such error: on the overlapping input below (forecast starting at
day 0, history ending at day 7) `assemble` returns an ordinary merged
payload. -/
theorem c4_counterexample_overlap_not_rejected :
    (assemble [WeeklyBucket.mk 0 10, WeeklyBucket.mk 7 20]
      [ForecastPoint.mk 0 11 9 13, ForecastPoint.mk 7 21 18 24,
        ForecastPoint.mk 14 30 25 35]).labels = [0, 7, 14] ∧
      (0 : Nat) < 7 := by
  decide

/-- C4 (amended): the assembler never rejects overlapping series; whenever
the forecast's earliest date precedes the historical's latest date the
output is still the full outer merge, its label list containing exactly the
dates of both inputs. -/
theorem c4_overlap_outer_merged (H : List WeeklyBucket) (F : List ForecastPoint)
    (hlt : ∃ p ∈ F, ∃ b ∈ H, p.ds < b.ds) (d : Nat) :
    d ∈ (assemble H F).labels ↔
      d ∈ H.map (fun b => b.ds) ∨ d ∈ F.map (fun p => p.ds) := by
  rw [assemble_labels]
  exact mem_allDates _ _ d

/-- C4 witness: the amended statement at the overlapping concrete input. -/
theorem c4_overlap_outer_merged_witness :
    14 ∈ (assemble [WeeklyBucket.mk 0 10, WeeklyBucket.mk 7 20]
        [ForecastPoint.mk 0 11 9 13, ForecastPoint.mk 7 21 18 24,
          ForecastPoint.mk 14 30 25 35]).labels ↔
      14 ∈ [WeeklyBucket.mk 0 10, WeeklyBucket.mk 7 20].map (fun b => b.ds) ∨
        14 ∈ [ForecastPoint.mk 0 11 9 13, ForecastPoint.mk 7 21 18 24,
          ForecastPoint.mk 14 30 25 35].map (fun p => p.ds) :=
  c4_overlap_outer_merged _ _
    ⟨ForecastPoint.mk 0 11 9 13, by decide, WeeklyBucket.mk 7 20, by decide, by decide⟩ 14

/-- Reading an overwritten cell at its own index returns the new value. -/
theorem getD_set_self_of_lt {α : Type} (l : List α) (i : Nat) (a d : α) (hi : i < l.length) :
    (l.set i a).getD i d = a := by
  rw [List.getD_eq_getElem _ _ (by simpa using hi), List.getElem_set_self]

/-- Reading any other index is unaffected by the overwrite. -/
theorem getD_set_ne_of_lt {α : Type} (l : List α) (i j : Nat) (a d : α) (hne : i ≠ j)
    (hj : j < l.length) : (l.set i a).getD j d = l.getD j d := by
  rw [List.getD_eq_getElem _ _ (by simpa using hj), List.getElem_set_ne hne,
    List.getD_eq_getElem _ _ hj]

/-- The forecast column when the continuity override fires. -/
theorem assemble_forecasts_eq_set (H : List WeeklyBucket) (F : List ForecastPoint) (j : Nat)
    (hL : lastActualIndex ((assemble H F).actuals) = some j)
    (hc : j + 1 < ((assemble H F).labels.map (lookupYhat F)).length) :
    (assemble H F).forecasts = ((assemble H F).labels.map (lookupYhat F)).set j
      ((assemble H F).actuals.getD j none) := by
  rw [assemble_forecasts, hL]
  show (if j + 1 < ((assemble H F).labels.map (lookupYhat F)).length then
      ((assemble H F).labels.map (lookupYhat F)).set j ((assemble H F).actuals.getD j none)
    else (assemble H F).labels.map (lookupYhat F)) = _
  rw [if_pos hc]

/-- The forecast column when the last actual index is already the final
index: no override. -/
theorem assemble_forecasts_eq_map_of_last (H : List WeeklyBucket) (F : List ForecastPoint)
    (j : Nat) (hL : lastActualIndex ((assemble H F).actuals) = some j)
    (hc : ¬(j + 1 < ((assemble H F).labels.map (lookupYhat F)).length)) :
    (assemble H F).forecasts = (assemble H F).labels.map (lookupYhat F) := by
  rw [assemble_forecasts, hL]
  show (if j + 1 < ((assemble H F).labels.map (lookupYhat F)).length then
      ((assemble H F).labels.map (lookupYhat F)).set j ((assemble H F).actuals.getD j none)
    else (assemble H F).labels.map (lookupYhat F)) = _
  rw [if_neg hc]

/-- The forecast column when no index carries an actual: no override. -/
theorem assemble_forecasts_eq_map_of_none (H : List WeeklyBucket) (F : List ForecastPoint)
    (hL : lastActualIndex ((assemble H F).actuals) = none) :
    (assemble H F).forecasts = (assemble H F).labels.map (lookupYhat F) := by
  rw [assemble_forecasts, hL]

/-- The continuity override preserves the column length. -/
theorem assemble_forecasts_length (H : List WeeklyBucket) (F : List ForecastPoint) :
    (assemble H F).forecasts.length = (assemble H F).labels.length := by
  cases hL : lastActualIndex ((assemble H F).actuals) with
  | none => rw [assemble_forecasts_eq_map_of_none H F hL]; simp
  | some j =>
    by_cases hc : j + 1 < ((assemble H F).labels.map (lookupYhat F)).length
    · rw [assemble_forecasts_eq_set H F j hL hc]; simp
    · rw [assemble_forecasts_eq_map_of_last H F j hL hc]; simp

/-- Each forecast cell is either the forecast lookup of its label or (at
the overridden seam index) a copy of the actual there. -/
theorem assemble_forecasts_getD (H : List WeeklyBucket) (F : List ForecastPoint) (i : Nat)
    (hi : i < (assemble H F).labels.length) :
    (assemble H F).forecasts.getD i none = lookupYhat F ((assemble H F).labels.getD i 0) ∨
      (assemble H F).forecasts.getD i none = (assemble H F).actuals.getD i none := by
  have hmap : ((assemble H F).labels.map (lookupYhat F)).getD i none =
      lookupYhat F ((assemble H F).labels.getD i 0) := getD_map_of_lt _ _ i hi none 0
  cases hL : lastActualIndex ((assemble H F).actuals) with
  | none => rw [assemble_forecasts_eq_map_of_none H F hL]; exact Or.inl hmap
  | some j =>
    by_cases hc : j + 1 < ((assemble H F).labels.map (lookupYhat F)).length
    · rw [assemble_forecasts_eq_set H F j hL hc]
      by_cases hij : i = j
      · subst hij
        exact Or.inr (getD_set_self_of_lt _ _ _ _ (by simpa using hi))
      · rw [getD_set_ne_of_lt _ _ _ _ _ (fun h => hij h.symm) (by simpa using hi)]
        exact Or.inl hmap
    · rw [assemble_forecasts_eq_map_of_last H F j hL hc]
      exact Or.inl hmap

/-- The last actual index of a column does hold a populated cell. -/
theorem lastActualIndex_getD_isSome : ∀ (l : List (Option Int)) (j : Nat),
    lastActualIndex l = some j → l.getD j none ≠ none
  | [], _, h => by simp [lastActualIndex] at h
  | a :: t, j, h => by
    rw [show lastActualIndex (a :: t) = (match lastActualIndex t with
      | some i => some (i + 1)
      | none => if a.isSome = true then some 0 else none) from rfl] at h
    cases ht : lastActualIndex t with
    | some i =>
      rw [ht] at h
      have h3 : some (i + 1) = some j := h
      have hrec := lastActualIndex_getD_isSome t i ht
      rw [← Option.some.inj h3, List.getD_cons_succ]
      exact hrec
    | none =>
      rw [ht] at h
      have h3 : (if a.isSome = true then some 0 else none) = some j := h
      by_cases ha : a.isSome = true
      · rw [if_pos ha] at h3
        rw [← Option.some.inj h3, List.getD_cons_zero]
        exact Option.ne_none_iff_isSome.mpr ha
      · rw [if_neg ha] at h3
        exact absurd h3 (by simp)

/-- C2: claimed that in every assembled series only the single shared
boundary date carries both an actual and forecast values. Counterexample:
with the forecast covering the historical dates — as `forecast_full` always
does, since `model.predict(future)` includes the history — the entry at
day 0, strictly before the boundary day 7, carries the actual 50 AND the
raw prediction 40 and lower bound 30. -/
theorem c2_counterexample_pre_boundary_both_populated :
    ((assemble [WeeklyBucket.mk 0 50, WeeklyBucket.mk 7 60]
      [ForecastPoint.mk 0 40 30 55, ForecastPoint.mk 7 61 50 70,
        ForecastPoint.mk 14 75 62 88]).labels.getD 0 0 = 0) ∧ (0 : Nat) < 7 ∧
    ((assemble [WeeklyBucket.mk 0 50, WeeklyBucket.mk 7 60]
      [ForecastPoint.mk 0 40 30 55, ForecastPoint.mk 7 61 50 70,
        ForecastPoint.mk 14 75 62 88]).actuals.getD 0 none = some 50) ∧
    ((assemble [WeeklyBucket.mk 0 50, WeeklyBucket.mk 7 60]
      [ForecastPoint.mk 0 40 30 55, ForecastPoint.mk 7 61 50 70,
        ForecastPoint.mk 14 75 62 88]).forecasts.getD 0 none = some 40) ∧
    ((assemble [WeeklyBucket.mk 0 50, WeeklyBucket.mk 7 60]
      [ForecastPoint.mk 0 40 30 55, ForecastPoint.mk 7 61 50 70,
        ForecastPoint.mk 14 75 62 88]).lower_bound.getD 0 none = some 30) := by
  decide

/-- C2 (amended): in an assembled series an entry carries an actual exactly
when its date is a historical date and carries lower/upper confidence
bounds exactly when its date is a forecast date; its predicted cell is the
forecast lookup of its date — populated exactly when the date is a
forecast date — except possibly at the seam override index, where it is
instead a copy of the entry's actual cell, which is populated there. The
actual and forecast regions therefore co-populate at every date present in
both inputs (in the program the forecast covers all historical dates), not
only at a single boundary date. -/
theorem c2_population_matches_inputs (H : List WeeklyBucket) (F : List ForecastPoint) (i : Nat)
    (hi : i < (assemble H F).labels.length) :
    ((assemble H F).actuals.getD i none ≠ none ↔
      (assemble H F).labels.getD i 0 ∈ H.map (fun b => b.ds)) ∧
    ((assemble H F).lower_bound.getD i none ≠ none ↔
      (assemble H F).labels.getD i 0 ∈ F.map (fun p => p.ds)) ∧
    ((assemble H F).upper_bound.getD i none ≠ none ↔
      (assemble H F).labels.getD i 0 ∈ F.map (fun p => p.ds)) ∧
    ((assemble H F).forecasts.getD i none =
        lookupYhat F ((assemble H F).labels.getD i 0) ∨
      ((assemble H F).forecasts.getD i none = (assemble H F).actuals.getD i none ∧
        (assemble H F).actuals.getD i none ≠ none)) := by
  refine ⟨?_, ?_, ?_, ?_⟩
  · rw [assemble_actuals, getD_map_of_lt _ _ i hi none 0]
    exact lookupY_ne_none_iff H _
  · rw [assemble_lower, getD_map_of_lt _ _ i hi none 0]
    exact lookupLower_ne_none_iff F _
  · rw [assemble_upper, getD_map_of_lt _ _ i hi none 0]
    exact lookupUpper_ne_none_iff F _
  · cases hL : lastActualIndex ((assemble H F).actuals) with
    | none =>
      exact Or.inl (by rw [assemble_forecasts_eq_map_of_none H F hL,
        getD_map_of_lt _ _ i hi none 0])
    | some j =>
      by_cases hc : j + 1 < ((assemble H F).labels.map (lookupYhat F)).length
      · by_cases hij : i = j
        · subst hij
          refine Or.inr ⟨?_, lastActualIndex_getD_isSome _ i hL⟩
          rw [assemble_forecasts_eq_set H F i hL hc]
          exact getD_set_self_of_lt _ _ _ _ (by simpa using hi)
        · refine Or.inl ?_
          rw [assemble_forecasts_eq_set H F j hL hc,
            getD_set_ne_of_lt _ _ _ _ _ (fun h => hij h.symm) (by simpa using hi),
            getD_map_of_lt _ _ i hi none 0]
      · exact Or.inl (by rw [assemble_forecasts_eq_map_of_last H F j hL hc,
          getD_map_of_lt _ _ i hi none 0])

/-- C2 witness: the amended statement at the history-covering input. -/
theorem c2_population_matches_inputs_witness :
    ((assemble [WeeklyBucket.mk 0 50, WeeklyBucket.mk 7 60]
      [ForecastPoint.mk 0 40 30 55, ForecastPoint.mk 7 61 50 70,
        ForecastPoint.mk 14 75 62 88]).actuals.getD 0 none ≠ none ↔
      (assemble [WeeklyBucket.mk 0 50, WeeklyBucket.mk 7 60]
        [ForecastPoint.mk 0 40 30 55, ForecastPoint.mk 7 61 50 70,
          ForecastPoint.mk 14 75 62 88]).labels.getD 0 0 ∈
        [WeeklyBucket.mk 0 50, WeeklyBucket.mk 7 60].map (fun b => b.ds)) :=
  (c2_population_matches_inputs [WeeklyBucket.mk 0 50, WeeklyBucket.mk 7 60]
    [ForecastPoint.mk 0 40 30 55, ForecastPoint.mk 7 61 50 70,
      ForecastPoint.mk 14 75 62 88] 0 (by decide)).1

/-- C10: the five serialized chart lists are aligned: the four value lists
all have the labels' length, the labels are exactly the distinct dates of
the two merged series, and the value at index i of each list is determined
by the i-th label — the actual is the historical lookup at that date, the
bounds are the forecast lookups, and the forecast cell is the forecast
lookup except at the overridden seam index, where it copies the actual of
the same date. -/
theorem c10_chart_lists_aligned (H : List WeeklyBucket) (F : List ForecastPoint)
    (hH : (H.map (fun b => b.ds)).Nodup) (hF : (F.map (fun p => p.ds)).Nodup) :
    (assemble H F).actuals.length = (assemble H F).labels.length ∧
    (assemble H F).forecasts.length = (assemble H F).labels.length ∧
    (assemble H F).lower_bound.length = (assemble H F).labels.length ∧
    (assemble H F).upper_bound.length = (assemble H F).labels.length ∧
    (assemble H F).labels.Nodup ∧
    (∀ d : Nat, d ∈ (assemble H F).labels ↔
      d ∈ H.map (fun b => b.ds) ∨ d ∈ F.map (fun p => p.ds)) ∧
    (∀ i : Nat, i < (assemble H F).labels.length →
      (assemble H F).actuals.getD i none = lookupY H ((assemble H F).labels.getD i 0) ∧
      (assemble H F).lower_bound.getD i none = lookupLower F ((assemble H F).labels.getD i 0) ∧
      (assemble H F).upper_bound.getD i none = lookupUpper F ((assemble H F).labels.getD i 0) ∧
      ((assemble H F).forecasts.getD i none =
          lookupYhat F ((assemble H F).labels.getD i 0) ∨
        (assemble H F).forecasts.getD i none = (assemble H F).actuals.getD i none)) := by
  refine ⟨?_, assemble_forecasts_length H F, ?_, ?_, ?_, ?_, ?_⟩
  · rw [assemble_actuals]; simp
  · rw [assemble_lower]; simp
  · rw [assemble_upper]; simp
  · rw [assemble_labels]; exact allDates_nodup _ _ hH hF
  · intro d
    rw [assemble_labels]
    exact mem_allDates _ _ d
  · intro i hi
    refine ⟨?_, ?_, ?_, assemble_forecasts_getD H F i hi⟩
    · rw [assemble_actuals, getD_map_of_lt _ _ i hi none 0]
    · rw [assemble_lower, getD_map_of_lt _ _ i hi none 0]
    · rw [assemble_upper, getD_map_of_lt _ _ i hi none 0]

/-- C10 witness: the alignment statement at a concrete request-shaped
input (history ending at day 7, forecast covering days 0-14). -/
theorem c10_chart_lists_aligned_witness :
    (assemble [WeeklyBucket.mk 0 50, WeeklyBucket.mk 7 60]
      [ForecastPoint.mk 0 40 30 55, ForecastPoint.mk 7 61 50 70,
        ForecastPoint.mk 14 75 62 88]).labels.Nodup :=
  (c10_chart_lists_aligned [WeeklyBucket.mk 0 50, WeeklyBucket.mk 7 60]
    [ForecastPoint.mk 0 40 30 55, ForecastPoint.mk 7 61 50 70,
      ForecastPoint.mk 14 75 62 88] (by decide) (by decide)).2.2.2.2.1

/-! ### The boundary-continuity override (C1) -/

/-- In a strictly increasing list ending at `b`, every element is ≤ `b`. -/
theorem all_le_of_pairwise_lt_concat (ys : List Nat) (b : Nat)
    (h : (ys ++ [b]).Pairwise (fun a c => a < c)) : ∀ x ∈ ys ++ [b], x ≤ b := by
  intro x hx
  rcases List.mem_append.mp hx with hx | hx
  · rw [List.pairwise_append] at h
    exact Nat.le_of_lt (h.2.2 x hx b (List.mem_singleton_self b))
  · rw [List.mem_singleton.mp hx]

/-- The merged, sorted label list at a clean seam: history strictly sorted
and ending at the boundary `b`, forecast strictly sorted and starting at
`b` — the labels are the history dates followed by the strictly-later
forecast dates. -/
theorem allDates_boundary (ys : List Nat) (b : Nat) (rest : List Nat)
    (hsorted : (ys ++ [b]).Pairwise (fun a c => a < c))
    (hfd : (b :: rest).Pairwise (fun a c => a < c)) :
    allDates (ys ++ [b]) (b :: rest) = (ys ++ [b]) ++ rest := by
  have hfdnodup : (b :: rest).Nodup := hfd.imp (fun h => Nat.ne_of_lt h)
  have hble : ∀ x ∈ ys ++ [b], x ≤ b := all_le_of_pairwise_lt_concat ys b hsorted
  have hbrest : ∀ x ∈ rest, b < x := (List.pairwise_cons.mp hfd).1
  unfold allDates outerMergeDates
  rw [flatMap_replicate_of_nodup _ _ hfdnodup]
  have hfil : (b :: rest).filter (fun d => !((ys ++ [b]).contains d)) = rest := by
    rw [List.filter_cons_of_neg (by simp)]
    apply List.filter_eq_self.mpr
    intro x hx
    have hxb : b < x := hbrest x hx
    have hnot : x ∉ ys ++ [b] := fun hmem => absurd (hble x hmem) (by omega)
    simp [hnot]
  rw [hfil]
  have hsorted2 : ((ys ++ [b]) ++ rest).Pairwise (fun a c => a ≤ c) := by
    rw [List.pairwise_append]
    refine ⟨hsorted.imp Nat.le_of_lt,
      ((List.pairwise_cons.mp hfd).2).imp Nat.le_of_lt, ?_⟩
    intro a ha x hx
    exact Nat.le_of_lt (Nat.lt_of_le_of_lt (hble a ha) (hbrest x hx))
  exact List.Sorted.insertionSort_eq hsorted2

/-- A list of only `None`s has no last actual index. -/
theorem lastActualIndex_all_none (l : List (Option Int)) (h : ∀ o ∈ l, o = none) :
    lastActualIndex l = none := by
  induction l with
  | nil => rfl
  | cons a t ih =>
    have ht := ih (fun o ho => h o (List.mem_cons_of_mem a ho))
    have ha : a = none := h a (List.mem_cons_self a t)
    simp [lastActualIndex, ht, ha]

/-- When a nonempty all-`Some` block is followed by an all-`None` block,
the last actual index is the final index of the block. -/
theorem lastActualIndex_some_prefix : ∀ (xs ys : List (Option Int)),
    (∀ o ∈ xs, o.isSome = true) → (∀ o ∈ ys, o = none) → xs ≠ [] →
    lastActualIndex (xs ++ ys) = some (xs.length - 1)
  | [], _, _, _, hne => absurd rfl hne
  | [a], ys, hxs, hys, _ => by
    have h1 : lastActualIndex ys = none := lastActualIndex_all_none ys hys
    have ha : a.isSome = true := hxs a (List.mem_cons_self _ _)
    simp [lastActualIndex, h1, ha]
  | a :: c :: u, ys, hxs, hys, _ => by
    have h2 := lastActualIndex_some_prefix (c :: u) ys
      (fun o ho => hxs o (List.mem_cons_of_mem a ho)) hys (by simp)
    show (match lastActualIndex ((c :: u) ++ ys) with
      | some i => some (i + 1)
      | none => if a.isSome = true then some 0 else none) = some ((a :: c :: u).length - 1)
    rw [h2]
    simp

/-- Reading an index inside the left part of an append. -/
theorem getD_append_left_of_lt {α : Type} (xs ys : List α) (i : Nat) (d : α)
    (hi : i < xs.length) : (xs ++ ys).getD i d = xs.getD i d := by
  have hi2 : i < (xs ++ ys).length := by simp; omega
  rw [List.getD_eq_getElem _ _ hi2, List.getD_eq_getElem _ _ hi, List.getElem_append_left]

/-- Reading the concatenated final element. -/
theorem getD_concat_self (ys : List Nat) (b : Nat) : (ys ++ [b]).getD ys.length 0 = b := by
  rw [List.getD_eq_getElem _ _ (by simp)]
  simp

/-- C1: claimed that whenever the forecast's earliest date equals the
history's latest date the assembled entry at that boundary has its
predicted value forced equal to the actual. Counterexample: when the
forecast consists of the boundary point alone, the override of app.py
lines 252-256 is skipped — its guard needs `last_actual_index + 1` to be a
valid index — so the seam keeps the model's raw prediction 99 instead of
the actual 10. -/
theorem c1_counterexample_singleton_forecast :
    (assemble [WeeklyBucket.mk 0 10] [ForecastPoint.mk 0 99 90 110]).actuals = [some 10] ∧
    (assemble [WeeklyBucket.mk 0 10] [ForecastPoint.mk 0 99 90 110]).forecasts = [some 99] ∧
    some (99 : Int) ≠ some 10 := by
  decide

/-- C1 (amended): for strictly sorted series sharing exactly the boundary
date (forecast's first date = history's last date), provided the forecast
also contains at least one date strictly after the boundary, the assembled
entry at the boundary index has its forecast cell forced equal to the
actual cell. -/
theorem c1_boundary_forced_to_actual (H : List WeeklyBucket) (f0 : ForecastPoint)
    (Fr : List ForecastPoint)
    (hH : (H.map (fun x => x.ds)).Pairwise (fun a c => a < c))
    (hF : ((f0 :: Fr).map (fun p => p.ds)).Pairwise (fun a c => a < c))
    (hb : (H.map (fun x => x.ds)).getLast? = some f0.ds)
    (hrest : Fr ≠ []) :
    ∃ v : Int,
      (assemble H (f0 :: Fr)).actuals.getD (H.length - 1) none = some v ∧
      (assemble H (f0 :: Fr)).forecasts.getD (H.length - 1) none = some v := by
  obtain ⟨ys, hys⟩ := List.getLast?_eq_some_iff.mp hb
  rw [List.map_cons] at hF
  have hHpair : (ys ++ [f0.ds]).Pairwise (fun a c => a < c) := hys ▸ hH
  have hlabels : (assemble H (f0 :: Fr)).labels =
      (ys ++ [f0.ds]) ++ Fr.map (fun p => p.ds) := by
    rw [assemble_labels, List.map_cons, hys]
    exact allDates_boundary ys f0.ds _ hHpair hF
  have hHlen : H.length = ys.length + 1 := by
    have := congrArg List.length hys
    simpa using this
  have hacts : (assemble H (f0 :: Fr)).actuals =
      ((ys ++ [f0.ds]).map (lookupY H)) ++ (Fr.map (fun p => p.ds)).map (lookupY H) := by
    rw [assemble_actuals, hlabels, List.map_append]
  have hpre : ∀ o ∈ (ys ++ [f0.ds]).map (lookupY H), o.isSome = true := by
    intro o ho
    obtain ⟨d, hdm, rfl⟩ := List.mem_map.mp ho
    have hdm2 : d ∈ H.map (fun x => x.ds) := by rw [hys]; exact hdm
    exact Option.ne_none_iff_isSome.mp ((lookupY_ne_none_iff H d).mpr hdm2)
  have hgt : ∀ x ∈ Fr.map (fun p => p.ds), f0.ds < x := (List.pairwise_cons.mp hF).1
  have hble : ∀ x ∈ ys ++ [f0.ds], x ≤ f0.ds := all_le_of_pairwise_lt_concat ys f0.ds hHpair
  have hsuf : ∀ o ∈ (Fr.map (fun p => p.ds)).map (lookupY H), o = none := by
    intro o ho
    obtain ⟨d, hdm, rfl⟩ := List.mem_map.mp ho
    have hnotin : d ∉ H.map (fun x => x.ds) := by
      rw [hys]
      intro hmem
      exact absurd (hble d hmem) (by have := hgt d hdm; omega)
    by_contra hne
    exact hnotin ((lookupY_ne_none_iff H d).mp hne)
  have hlast : lastActualIndex ((assemble H (f0 :: Fr)).actuals) = some ys.length := by
    rw [hacts, lastActualIndex_some_prefix _ _ hpre hsuf (by simp)]
    simp
  have hFrlen : 0 < (Fr.map (fun p => p.ds)).length := by
    cases Fr with
    | nil => exact absurd rfl hrest
    | cons p ps => simp
  have hlablen : (assemble H (f0 :: Fr)).labels.length =
      ys.length + 1 + (Fr.map (fun p => p.ds)).length := by
    rw [hlabels]
    simp only [List.length_append, List.length_map, List.length_cons, List.length_nil]
  have hc : ys.length + 1 < ((assemble H (f0 :: Fr)).labels.map (lookupYhat (f0 :: Fr))).length := by
    rw [List.length_map, hlablen]; omega
  have hfors := assemble_forecasts_eq_set H (f0 :: Fr) ys.length hlast hc
  have hidx : H.length - 1 = ys.length := by omega
  rw [hidx]
  have hjlt : ys.length < (assemble H (f0 :: Fr)).labels.length := by rw [hlablen]; omega
  have hactsval : (assemble H (f0 :: Fr)).actuals.getD ys.length none = lookupY H f0.ds := by
    rw [hacts, getD_append_left_of_lt _ _ _ _ (by simp),
      getD_map_of_lt _ _ ys.length (by simp) none 0, getD_concat_self]
  have hbmem : f0.ds ∈ H.map (fun x => x.ds) := by rw [hys]; simp
  obtain ⟨v, hv⟩ := Option.ne_none_iff_exists'.mp ((lookupY_ne_none_iff H f0.ds).mpr hbmem)
  refine ⟨v, ?_, ?_⟩
  · rw [hactsval, hv]
  · rw [hfors, getD_set_self_of_lt _ _ _ _ (by rw [List.length_map]; exact hjlt),
      hactsval, hv]

/-- C1 witness: the amended statement at a two-point forecast whose first
date is the history's last date. -/
theorem c1_boundary_forced_to_actual_witness :
    ∃ v : Int,
      (assemble [WeeklyBucket.mk 0 10]
        [ForecastPoint.mk 0 99 90 110, ForecastPoint.mk 7 120 95 140]).actuals.getD
          ([WeeklyBucket.mk 0 10].length - 1) none = some v ∧
      (assemble [WeeklyBucket.mk 0 10]
        [ForecastPoint.mk 0 99 90 110, ForecastPoint.mk 7 120 95 140]).forecasts.getD
          ([WeeklyBucket.mk 0 10].length - 1) none = some v :=
  c1_boundary_forced_to_actual [WeeklyBucket.mk 0 10] (ForecastPoint.mk 0 99 90 110)
    [ForecastPoint.mk 7 120 95 140] (by decide) (by decide) (by decide) (by decide)

end SalesForecast
